import Mathlib

/-!
Shallow embedding of the LLaMA-style transformer in src/model.py.

Modelling conventions:
* Tensors are index functions into a scalar field together with a dtype tag
  (structures T3 / T4 below); indices outside a tensor's logical extent read
  junk values that no theorem depends on.
* Exact field arithmetic stands in for floating-point arithmetic.  The numeric
  primitives that the execution engine supplies (exp, sqrt, rsqrt, silu) and
  dtype conversions are abstracted into an Engine record; an explicit source
  cast such as x.float() or .type_as(y) becomes an application of Engine.castF.
  F.softmax on a tensor of dtype d computes its exponentials with expAt d,
  mirroring the fact that torch kernels compute in the tensor's dtype.
* A float tensor that can hold -infinity (the additive causal mask, and the
  attention scores after the mask is added) takes values in WithBot of the
  scalar field, with bottom playing the role of -infinity; the exponential of
  bottom is 0, exactly as exp(-inf) = 0 in IEEE arithmetic.
* Python integer truncation int(...) is pyInt, and the slice l[a : a + n]
  is pySlice l a n, with Python's silent clamping semantics.
-/

/-- Floating point storage dtypes that appear in the pipeline. -/
inductive DType where
  | float16 : DType
  | bfloat16 : DType
  | float32 : DType
  | float64 : DType
deriving DecidableEq

/-- Width rank used by torch type promotion (float16 and bfloat16 tie). -/
def DType.rank : DType → ℕ
  | DType.float16 => 0
  | DType.bfloat16 => 0
  | DType.float32 => 1
  | DType.float64 => 2

/-- Torch dtype promotion for a binary op: wider dtype wins, and the
mixed half-precision pair promotes to float32. -/
def promoteDType (a b : DType) : DType :=
  if a = b then a
  else if a.rank < b.rank then b
  else if b.rank < a.rank then a
  else DType.float32

/-- The numeric primitives supplied by the execution engine, abstracted:
expAt d is the exponential as computed in dtype d (used by F.softmax),
sqrtF is math.sqrt, rsqrtF is torch.rsqrt, siluF is F.silu, and castF d
converts a stored value to dtype d (x.float(), .type_as, ...). -/
structure Engine (α : Type) where
  expAt : DType → α → α
  sqrtF : α → α
  rsqrtF : α → α
  siluF : α → α
  castF : DType → α → α

/-- A rank-3 tensor [batch, seq, features]: dtype tag plus index function. -/
structure T3 (α : Type) where
  dt : DType
  v : ℕ → ℕ → ℕ → α

/-- A rank-4 tensor [batch, d1, d2, d3]: dtype tag plus index function. -/
structure T4 (α : Type) where
  dt : DType
  v : ℕ → ℕ → ℕ → ℕ → α

/-- Python int(q): truncation toward zero. -/
def pyInt (q : ℚ) : ℤ := if 0 ≤ q then ⌊q⌋ else -⌊-q⌋

/-- Python slice l[start : start + len]: silently clamps to the available
elements instead of failing when start + len exceeds the length. -/
def pySlice {β : Type} (l : List β) (start len : ℕ) : List β :=
  (l.drop start).take len

/-- find_multiple from src/model.py: round n up to the nearest multiple of k
(Python % on a positive modulus is Int.emod). -/
def find_multiple (n : ℤ) (k : ℕ) : ℤ :=
  if Int.emod n k = 0 then n else n + k - Int.emod n k

/-- The ModelArgs dataclass exactly as declared, with its source defaults;
optional fields are still unresolved here. -/
structure ModelArgs where
  dim : ℕ := 4096
  n_layers : ℕ := 32
  n_heads : ℕ := 32
  n_kv_heads : Option ℕ := none
  vocab_size : ℕ := 32000
  multiple_of : ℕ := 256
  ffn_dim_multiplier : Option ℚ := none
  norm_eps : ℚ := 1e-5
  max_batch_size : ℕ := 32
  max_seq_len : ℕ := 2048
deriving DecidableEq

/-- A ModelArgs value after __post_init__ ran: n_kv_heads and
ffn_dim_multiplier resolved, intermediate_size derived. -/
structure ResolvedArgs where
  dim : ℕ
  n_layers : ℕ
  n_heads : ℕ
  n_kv_heads : ℕ
  vocab_size : ℕ
  multiple_of : ℕ
  ffn_dim_multiplier : ℚ
  norm_eps : ℚ
  max_batch_size : ℕ
  max_seq_len : ℕ
  intermediate_size : ℤ
deriving DecidableEq

/-- ModelArgs.__post_init__: defaults n_kv_heads to n_heads and
ffn_dim_multiplier to 4/3, then sets
intermediate_size = find_multiple(int(2 * ffn_dim_multiplier * dim), multiple_of).
It performs no validation of any kind and cannot fail. -/
def ModelArgs.post_init (a : ModelArgs) : ResolvedArgs :=
  let nkv := a.n_kv_heads.getD a.n_heads
  let mult := a.ffn_dim_multiplier.getD (4 / 3 : ℚ)
  ⟨a.dim, a.n_layers, a.n_heads, nkv, a.vocab_size, a.multiple_of, mult,
    a.norm_eps, a.max_batch_size, a.max_seq_len,
    find_multiple (pyInt (2 * mult * (a.dim : ℚ))) a.multiple_of⟩

variable {α : Type} [Field α]

/-- nn.Linear with bias=False on the last axis of a rank-3 tensor:
out[b,s,o] = sum over the inF input features of W[o,c] * x[b,s,c]. -/
def linearT (W : ℕ → ℕ → α) (inF : ℕ) (x : T3 α) : T3 α :=
  ⟨x.dt, fun b s o => ∑ c ∈ Finset.range inF, W o c * x.v b s c⟩

/-- x.view(bsz, seqlen, n_heads, head_dim) splitting a flat feature axis. -/
def view3to4 (hd : ℕ) (x : T3 α) : T4 α :=
  ⟨x.dt, fun b s h d => x.v b s (h * hd + d)⟩

/-- x.transpose(1, 2). -/
def transpose12 (x : T4 α) : T4 α :=
  ⟨x.dt, fun b i j d => x.v b j i d⟩

/-- x.transpose(-2, -1). -/
def transposeLast (x : T4 α) : T4 α :=
  ⟨x.dt, fun b h i j => x.v b h j i⟩

/-- x.transpose(1, 2).contiguous().view(bsz, seqlen, -1): merge the trailing
head and head_dim axes back into one flat feature axis. -/
def flatten34 (hd : ℕ) (x : T4 α) : T3 α :=
  ⟨x.dt, fun b s c => x.v b s (c / hd) (c % hd)⟩

/-- Batched matmul of [b,h,i,k] with [b,h,k,j] (operands share a dtype in
this pipeline, so the result keeps the left operand's dtype). -/
def matmul4 (k : ℕ) (x y : T4 α) : T4 α :=
  ⟨x.dt, fun b h i j => ∑ e ∈ Finset.range k, x.v b h i e * y.v b h e j⟩

/-- Division of every entry by a scalar. -/
def divScalar (c : α) (x : T4 α) : T4 α :=
  ⟨x.dt, fun b h i j => x.v b h i j / c⟩

/-- x[:, :, :, None, :].expand(batch, seq_len, n_kv_heads, n_rep, head_dim):
broadcast along the inserted repetition axis. -/
def expandRep (x : T4 α) : ℕ → ℕ → ℕ → ℕ → ℕ → α :=
  fun b s k _ d => x.v b s k d

/-- reshape(batch, seq_len, n_kv_heads * n_rep, head_dim) of the expanded
tensor: output head h decomposes as kv-head h / n_rep, repeat h % n_rep. -/
def reshapeRep (n_rep : ℕ) (e : ℕ → ℕ → ℕ → ℕ → ℕ → α) : ℕ → ℕ → ℕ → ℕ → α :=
  fun b s h d => e b s (h / n_rep) (h % n_rep) d

/-- repeat_kv from src/model.py: returns the input itself when n_rep == 1,
otherwise duplicates each kv head n_rep times contiguously. -/
def repeat_kv (x : T4 α) (n_rep : ℕ) : T4 α :=
  if n_rep = 1 then x else ⟨x.dt, reshapeRep n_rep (expandRep x)⟩

/-- Complex multiplication on (real, imaginary) pairs. -/
def cmul (u w : α × α) : α × α :=
  (u.1 * w.1 - u.2 * w.2, u.1 * w.2 + u.2 * w.1)

/-- torch.view_as_complex of the last axis: pair i is components (2i, 2i+1). -/
def pairAt (v : ℕ → α) (i : ℕ) : α × α :=
  (v (2 * i), v (2 * i + 1))

/-- apply_rotary_emb from src/model.py, for one of its two arguments: cast to
float32, reinterpret the last axis as complex pairs, multiply pair d/2 of
position s by the broadcast table entry freqs[s, d/2], flatten the real and
imaginary parts back (component d % 2), and cast back to the input dtype. -/
def apply_rotary_emb (E : Engine α) (freqs : ℕ → ℕ → α × α) (x : T4 α) : T4 α :=
  ⟨x.dt, fun b s h d =>
    E.castF x.dt
      (if d % 2 = 0 then
        (cmul (pairAt (fun c => E.castF DType.float32 (x.v b s h c)) (d / 2)) (freqs s (d / 2))).1
       else
        (cmul (pairAt (fun c => E.castF DType.float32 (x.v b s h c)) (d / 2)) (freqs s (d / 2))).2)⟩

/-- The exponential used by softmax on values that may be -infinity:
exp(-inf) = 0, otherwise the engine exponential at the given dtype. -/
def expB (E : Engine α) (dt : DType) : WithBot α → α :=
  WithBot.recBotCoe 0 (E.expAt dt)

/-- The line `if mask is not None: scores = scores + mask`: inject the scores
into the -infinity-capable value space and, when a mask is present, add its
broadcast entry; the mask tensor is float32 (torch.full's default), so the
sum promotes accordingly. -/
def addMask (x : T4 α) (mask : Option (ℕ → ℕ → WithBot α)) : T4 (WithBot α) :=
  match mask with
  | none => ⟨x.dt, fun b h i j => (x.v b h i j : WithBot α)⟩
  | some m => ⟨promoteDType x.dt DType.float32, fun b h i j => (x.v b h i j : WithBot α) + m i j⟩

/-- scores.float(): cast every (possibly -infinity) entry to float32. -/
def floatCastWB (E : Engine α) (x : T4 (WithBot α)) : T4 (WithBot α) :=
  ⟨DType.float32, fun b h i j => WithBot.map (E.castF DType.float32) (x.v b h i j)⟩

/-- F.softmax(-, dim=-1) over a last axis of length n, computed in the
tensor's own dtype. -/
def softmaxLast (E : Engine α) (n : ℕ) (x : T4 (WithBot α)) : T4 α :=
  ⟨x.dt, fun b h i j =>
    expB E x.dt (x.v b h i j) / ∑ k ∈ Finset.range n, expB E x.dt (x.v b h i k)⟩

/-- .type_as with the given target dtype. -/
def typeAsT (E : Engine α) (target : DType) (x : T4 α) : T4 α :=
  ⟨target, fun b h i j => E.castF target (x.v b h i j)⟩

/-- The weight matrices of one Attention module (all bias-free). -/
structure AttentionW (α : Type) where
  wq : ℕ → ℕ → α
  wk : ℕ → ℕ → α
  wv : ℕ → ℕ → α
  wo : ℕ → ℕ → α

/-- The fields Attention.__init__ derives from ModelArgs. -/
structure AttentionM (α : Type) where
  n_kv_heads : ℕ
  n_heads_q : ℕ
  n_rep : ℕ
  head_dim : ℕ
  w : AttentionW α

/-- Attention.__init__: n_rep = n_heads // n_kv_heads and
head_dim = dim // n_heads (Python floor divisions). -/
def Attention.init (args : ResolvedArgs) (w : AttentionW α) : AttentionM α :=
  ⟨args.n_kv_heads, args.n_heads, args.n_heads / args.n_kv_heads,
    args.dim / args.n_heads, w⟩

/-- Attention.forward from src/model.py, line by line: project to Q, K, V;
view into heads; rotary-encode Q and K; repeat K and V; transpose; scaled
scores; optional additive mask; softmax in float32 cast back via
.type_as(xq); weight the values; transpose back, flatten heads, and apply
the output projection. dim is wq's in_features (= args.dim) and seqlen the
length of the current sequence axis. -/
def Attention.forward (E : Engine α) (A : AttentionM α) (dim seqlen : ℕ)
    (x : T3 α) (freqs : ℕ → ℕ → α × α) (mask : Option (ℕ → ℕ → WithBot α)) : T3 α :=
  let xq := linearT A.w.wq dim x
  let xk := linearT A.w.wk dim x
  let xv := linearT A.w.wv dim x
  let xq4 := view3to4 A.head_dim xq
  let xk4 := view3to4 A.head_dim xk
  let xv4 := view3to4 A.head_dim xv
  let xqr := apply_rotary_emb E freqs xq4
  let xkr := apply_rotary_emb E freqs xk4
  let xkR := repeat_kv xkr A.n_rep
  let xvR := repeat_kv xv4 A.n_rep
  let xqT := transpose12 xqr
  let xkT := transpose12 xkR
  let xvT := transpose12 xvR
  let scores := divScalar (E.sqrtF ((A.head_dim : ℕ) : α)) (matmul4 A.head_dim xqT (transposeLast xkT))
  let masked := addMask scores mask
  let soft := typeAsT E xqT.dt (softmaxLast E seqlen (floatCastWB E masked))
  let out := matmul4 seqlen soft xvT
  let out3 := flatten34 A.head_dim (transpose12 out)
  linearT A.w.wo (A.n_heads_q * A.head_dim) out3

/-- FeedForward.__init__'s recomputation of its hidden width:
hidden_dim = find_multiple(int(2 * hidden_dim / 3), multiple_of). -/
def FeedForward.hidden_dim (hidden_dim : ℤ) (multiple_of : ℕ) : ℤ :=
  find_multiple (pyInt (2 * (hidden_dim : ℚ) / 3)) multiple_of

/-- The hidden width the FeedForward inside a TransformerBlock actually uses:
the block passes args.intermediate_size as FeedForward's hidden_dim argument,
which FeedForward then rescales again. -/
def TransformerBlock.ffn_hidden (args : ResolvedArgs) : ℤ :=
  FeedForward.hidden_dim args.intermediate_size args.multiple_of

/-- FeedForward.forward: w2(silu(w1 x) * w3 x), all projections bias-free. -/
def FeedForward.forward (E : Engine α) (dim hid : ℕ) (w1 w2 w3 : ℕ → ℕ → α) (x : T3 α) : T3 α :=
  let a1 := linearT w1 dim x
  let a3 := linearT w3 dim x
  let g : T3 α := ⟨a1.dt, fun b s c => E.siluF (a1.v b s c) * a3.v b s c⟩
  linearT w2 hid g

/-- RMSNorm._norm: x * rsqrt(mean(x^2, last axis) + eps), on a last axis of
length D (the population mean of squares, no mean subtraction). -/
def RMSNorm.norm (E : Engine α) (eps : α) (D : ℕ) (x : ℕ → α) : ℕ → α :=
  fun i => x i * E.rsqrtF ((∑ j ∈ Finset.range D, x j ^ 2) / (D : α) + eps)

/-- RMSNorm.forward: self._norm(x.float()).type_as(x) * self.weight, for one
last-axis vector of a tensor whose dtype is dtX. -/
def RMSNorm.forward (E : Engine α) (eps : α) (D : ℕ) (weight : ℕ → α)
    (dtX : DType) (x : ℕ → α) : ℕ → α :=
  fun i => E.castF dtX (RMSNorm.norm E eps D (fun j => E.castF DType.float32 (x j)) i) * weight i

/-- RMSNorm applied along the last axis of a rank-3 tensor. -/
def rmsnormT3 (E : Engine α) (eps : α) (D : ℕ) (weight : ℕ → α) (x : T3 α) : T3 α :=
  ⟨x.dt, fun b s => RMSNorm.forward E eps D weight x.dt (x.v b s)⟩

/-- torch.full((1, 1, seqlen, seqlen), float(-inf)): every entry -infinity
(the two leading broadcast axes are left implicit). -/
def fullNegInf : ℕ → ℕ → WithBot α :=
  fun _ _ => ⊥

/-- torch.triu(-, diagonal=1): keep entries with j at least i + 1, zero the
rest. -/
def triu1 (M : ℕ → ℕ → WithBot α) : ℕ → ℕ → WithBot α :=
  fun i j => if i < j then M i j else 0

/-- The causal-mask construction in Transformer.forward: a strictly upper
triangular -infinity mask when seqlen > 1, and no mask at all otherwise. -/
def buildMask (seqlen : ℕ) : Option (ℕ → ℕ → WithBot α) :=
  if 1 < seqlen then some (triu1 fullNegInf) else none

/-- Entrywise residual addition x + sublayer(x). -/
def addT3 (x y : T3 α) : T3 α :=
  ⟨x.dt, fun b s c => x.v b s c + y.v b s c⟩

/-- The parameters owned by one TransformerBlock. -/
structure LayerW (α : Type) where
  attnW : AttentionW α
  w1 : ℕ → ℕ → α
  w2 : ℕ → ℕ → α
  w3 : ℕ → ℕ → α
  attention_norm : ℕ → α
  ffn_norm : ℕ → α

/-- TransformerBlock.forward: pre-norm residual composition
h = x + attention(attention_norm(x)); out = h + feed_forward(ffn_norm(h)). -/
def TransformerBlock.forward (E : Engine α) (args : ResolvedArgs) (L : LayerW α)
    (seqlen : ℕ) (freqs : ℕ → ℕ → α × α) (mask : Option (ℕ → ℕ → WithBot α))
    (x : T3 α) : T3 α :=
  let h := addT3 x (Attention.forward E (Attention.init args L.attnW) args.dim seqlen
    (rmsnormT3 E (args.norm_eps : α) args.dim L.attention_norm x) freqs mask)
  addT3 h (FeedForward.forward E args.dim (TransformerBlock.ffn_hidden args).toNat
    L.w1 L.w2 L.w3 (rmsnormT3 E (args.norm_eps : α) args.dim L.ffn_norm h))

/-- The state a Transformer owns: its dtype, the embedding table, the layer
stack, the final norm weight, the output projection, and the rotary table
precomputed at construction (a list of rows so that slicing has Python's
length semantics; its entries are engine-computed cos/sin pairs). -/
structure TransformerW (α : Type) where
  dt : DType
  tok_embeddings : ℕ → ℕ → α
  layers : List (LayerW α)
  normW : ℕ → α
  output : ℕ → ℕ → α
  freqs_cis : List (ℕ → α × α)

/-- Transformer.forward: embed the tokens, slice the rotary table at
[start_pos, start_pos + seqlen) with Python slice semantics, build the causal
mask when seqlen > 1, fold through the blocks, final-norm, and project to
vocabulary logits.  (The device transfer of freqs_cis is a no-op here.) -/
def Transformer.forward (E : Engine α) (args : ResolvedArgs) (W : TransformerW α)
    (tokens : ℕ → ℕ → ℕ) (seqlen start_pos : ℕ) : T3 α :=
  let h0 : T3 α := ⟨W.dt, fun b s c => W.tok_embeddings (tokens b s) c⟩
  let slice := pySlice W.freqs_cis start_pos seqlen
  let freqs : ℕ → ℕ → α × α := fun p i => slice.getD p (fun _ => (0, 0)) i
  let mask := buildMask (α := α) seqlen
  let hL := W.layers.foldl (fun acc L => TransformerBlock.forward E args L seqlen freqs mask acc) h0
  linearT W.output args.dim (rmsnormT3 E (args.norm_eps : α) args.dim W.normW hL)

/-- The logits tensor Transformer.forward returns, materialized with its
shape [bsz, seqlen, vocab_size]. -/
def transformer_logits (E : Engine α) (args : ResolvedArgs) (W : TransformerW α)
    (tokens : ℕ → ℕ → ℕ) (bsz seqlen start_pos : ℕ) : List (List (List α)) :=
  (List.range bsz).map fun b =>
    (List.range seqlen).map fun s =>
      (List.range args.vocab_size).map fun t =>
        (Transformer.forward E args W tokens seqlen start_pos).v b s t

/-- The maximum of a list of logits, bottom for the empty list. -/
def maxL : List ℚ → WithBot ℚ
  | [] => ⊥
  | x :: xs => max (x : WithBot ℚ) (maxL xs)

/-- torch.argmax over the last-position logits row: the index of the first
maximal entry (0 on an empty row). -/
def argmaxFirst : List ℚ → ℕ
  | [] => 0
  | x :: xs => if maxL xs ≤ (x : WithBot ℚ) then 0 else argmaxFirst xs + 1

/-- One iteration of the generation loop in generate_text_greedy:
next_token = argmax(outputs[:, -1, :] / temperature).  modelLast is the
model's last-position logits row for the current ids. -/
def greedyStep (modelLast : List ℕ → List ℚ) (temperature : ℚ) (ids : List ℕ) : ℕ :=
  argmaxFirst ((modelLast ids).map (fun z => z / temperature))

/-- The loop of generate_text_greedy from src/model.py: up to fuel steps,
append the greedy next token to the ids and stop early when it is the
end-of-sequence id. -/
def generate_text_greedy (modelLast : List ℕ → List ℚ) (eos : ℕ) (temperature : ℚ) :
    ℕ → List ℕ → List ℕ
  | 0, ids => ids
  | n + 1, ids =>
    let nt := greedyStep modelLast temperature ids
    let ids2 := ids ++ [nt]
    if nt = eos then ids2 else generate_text_greedy modelLast eos temperature n ids2

/-- precompute_freqs_cis from src/model.py, entrywise: row p, pair index i of
the table is torch.polar(1, p * theta^(-2i/dim)), written out as its
(cos, sin) components.  The row count (the end argument) bounds which rows
the callers read and appears in Transformer.init_freqs_cis below. -/
noncomputable def precompute_freqs_cis (dim : ℕ) (theta : ℝ) : ℕ → ℕ → ℝ × ℝ :=
  fun p i =>
    (Real.cos ((p : ℝ) * (1 / theta ^ (((2 * i : ℕ) : ℝ) / (dim : ℝ)))),
     Real.sin ((p : ℝ) * (1 / theta ^ (((2 * i : ℕ) : ℝ) / (dim : ℝ)))))

/-- The rotary table Transformer.__init__ stores:
precompute_freqs_cis(dim // n_heads, max_seq_len * 2), so the table has
exactly max_seq_len * 2 rows. -/
noncomputable def Transformer.init_freqs_cis (args : ResolvedArgs) : List (ℕ → ℝ × ℝ) :=
  (List.range (args.max_seq_len * 2)).map
    (fun p => precompute_freqs_cis (args.dim / args.n_heads) 10000 p)

/-- A (real, imaginary) component pair read back as one complex number. -/
def toC (p : ℝ × ℝ) : ℂ :=
  (p.1 : ℂ) + (p.2 : ℂ) * Complex.I

/-- The attention contract as the specification states it, written as one
direct formula instead of the source's view/transpose/repeat plumbing:
project without bias and reshape to heads; rotary-encode Q and K but not V;
query head h reads kv head h / n_rep (n_rep = n_heads / n_kv_heads) of K and
V; scores are the head_dim-dot product over sqrt(head_dim); the mask entry is
added when present; the softmax weights are computed with the float32
exponential whatever the working dtype and cast back to it; heads are
concatenated by summing w_o over the (head, component) decomposition of its
input axis. -/
def attention_spec (E : Engine α) (nH nKV hd dim seqlen : ℕ) (w : AttentionW α)
    (x : T3 α) (freqs : ℕ → ℕ → α × α) (mask : Option (ℕ → ℕ → WithBot α)) : T3 α :=
  let n_rep := nH / nKV
  let q : ℕ → ℕ → ℕ → ℕ → α := fun b s h e =>
    (apply_rotary_emb E freqs (view3to4 hd (linearT w.wq dim x))).v b s h e
  let k : ℕ → ℕ → ℕ → ℕ → α := fun b s h e =>
    (apply_rotary_emb E freqs (view3to4 hd (linearT w.wk dim x))).v b s (h / n_rep) e
  let vv : ℕ → ℕ → ℕ → ℕ → α := fun b s h e =>
    (view3to4 hd (linearT w.wv dim x)).v b s (h / n_rep) e
  let score : ℕ → ℕ → ℕ → ℕ → α := fun b h i j =>
    (∑ e ∈ Finset.range hd, q b i h e * k b j h e) / E.sqrtF ((hd : ℕ) : α)
  let mscore : ℕ → ℕ → ℕ → ℕ → WithBot α := fun b h i j =>
    match mask with
    | none => (score b h i j : WithBot α)
    | some m => (score b h i j : WithBot α) + m i j
  let weightW : ℕ → ℕ → ℕ → ℕ → α := fun b h i j =>
    E.castF x.dt
      (expB E DType.float32 (WithBot.map (E.castF DType.float32) (mscore b h i j)) /
        ∑ jj ∈ Finset.range seqlen,
          expB E DType.float32 (WithBot.map (E.castF DType.float32) (mscore b h i jj)))
  ⟨x.dt, fun b s o =>
    ∑ h ∈ Finset.range nH, ∑ e ∈ Finset.range hd,
      w.wo o (h * hd + e) * ∑ j ∈ Finset.range seqlen, weightW b h s j * vv b j h e⟩

/-! Helper lemmas shared by the claim theorems. -/

/-- Two rank-3 tensors with the same dtype and the same entries are equal. -/
theorem T3.ext_of {β : Type} {a b : T3 β} (h1 : a.dt = b.dt)
    (h2 : ∀ i s c, a.v i s c = b.v i s c) : a = b := by
  cases a
  cases b
  simp only [T3.mk.injEq]
  exact ⟨h1, funext fun i => funext fun s => funext fun c => h2 i s c⟩

/-- Splitting a sum over range (a + b) at a. -/
theorem sum_range_add_split {M : Type} [AddCommMonoid M] (a b : ℕ) (f : ℕ → M) :
    ∑ c ∈ Finset.range (a + b), f c =
      (∑ c ∈ Finset.range a, f c) + ∑ i ∈ Finset.range b, f (a + i) := by
  induction b with
  | zero => simp
  | succ k ih =>
    rw [show a + (k + 1) = (a + k) + 1 from rfl, Finset.sum_range_succ, ih,
      Finset.sum_range_succ, add_assoc]

/-- A sum over range (n * m) as a double sum over the quotient and remainder
by m. -/
theorem sum_range_mul_split {M : Type} [AddCommMonoid M] (n m : ℕ) (f : ℕ → M) :
    ∑ c ∈ Finset.range (n * m), f c =
      ∑ h ∈ Finset.range n, ∑ e ∈ Finset.range m, f (h * m + e) := by
  induction n with
  | zero => simp
  | succ k ih =>
    rw [Nat.succ_mul, sum_range_add_split, ih, Finset.sum_range_succ]

/-! The claim theorems. -/

/-- C1: the claim says an indivisible dim / n_heads or n_heads / n_kv_heads
fails fast inside ModelArgs.__post_init__.  It does not: __post_init__ has no
validation at all.  With dim = 10, n_heads = 3 (and the source defaults for
every other field), 10 is not divisible by 3, yet post-init construction
returns normally with intermediate_size = 256, and the Attention geometry
derived downstream silently satisfies n_heads * head_dim = 9, not 10. -/
theorem claimC1 :
    10 % 3 ≠ 0 ∧
    ModelArgs.post_init (ModelArgs.mk 10 32 3 none 32000 256 none (1e-5) 32 2048) =
      ResolvedArgs.mk 10 32 3 3 32000 256 (4 / 3) (1e-5) 32 2048 256 ∧
    (Attention.init
        (ModelArgs.post_init (ModelArgs.mk 10 32 3 none 32000 256 none (1e-5) 32 2048))
        (AttentionW.mk (fun _ _ => (0 : ℚ)) (fun _ _ => 0) (fun _ _ => 0) (fun _ _ => 0))).n_heads_q *
      (Attention.init
        (ModelArgs.post_init (ModelArgs.mk 10 32 3 none 32000 256 none (1e-5) 32 2048))
        (AttentionW.mk (fun _ _ => (0 : ℚ)) (fun _ _ => 0) (fun _ _ => 0) (fun _ _ => 0))).head_dim ≠
      (ModelArgs.post_init (ModelArgs.mk 10 32 3 none 32000 256 none (1e-5) 32 2048)).dim := by
  refine ⟨by decide, ?_, by decide⟩
  norm_num [ModelArgs.post_init, find_multiple, pyInt, Option.getD_none]

/-- C2: whenever start_pos + seqlen overruns the 2 * max_seq_len rows of the
rotary table built at construction, the slice taken by Transformer.forward
silently comes back shorter than seqlen (Python slicing clamps); no
sequence-length check exists anywhere on this path, contradicting the claim
that the call fails explicitly rather than slicing a short table. -/
theorem claimC2 (args : ResolvedArgs) (start_pos seqlen : ℕ) (h0 : 0 < seqlen)
    (hover : 2 * args.max_seq_len < start_pos + seqlen) :
    (pySlice (Transformer.init_freqs_cis args) start_pos seqlen).length < seqlen := by
  unfold pySlice Transformer.init_freqs_cis
  rw [List.length_take, List.length_drop, List.length_map, List.length_range]
  omega

/-- Witness for C2 at a concrete configuration with max_seq_len = 2
(table rows 0..3), start_pos = 3, seqlen = 2: the slice has 1 row, not 2. -/
theorem claimC2_witness :
    (pySlice
        (Transformer.init_freqs_cis (ResolvedArgs.mk 128 2 4 2 100 32 (4 / 3) (1e-5) 32 2 256))
        3 2).length < 2 :=
  claimC2 (ResolvedArgs.mk 128 2 4 2 100 32 (4 / 3) (1e-5) 32 2 256) 3 2 (by decide) (by decide)

/-- C4: for seqlen at least 2 the mask Transformer.forward builds is some m
with m i j = -infinity (bottom) strictly above the diagonal and 0 on or below
it; for seqlen = 1 no mask is built at all. -/
theorem claimC4 :
    (∀ (s i j : ℕ), 2 ≤ s → i < s → j < s →
      ∃ m : ℕ → ℕ → WithBot ℚ, buildMask (α := ℚ) s = some m ∧
        (i < j → m i j = ⊥) ∧ (j ≤ i → m i j = 0)) ∧
    buildMask (α := ℚ) 1 = none := by
  constructor
  · intro s i j hs _ _
    refine ⟨triu1 fullNegInf, ?_, ?_, ?_⟩
    · unfold buildMask
      rw [if_pos (by omega)]
    · intro hij
      unfold triu1 fullNegInf
      rw [if_pos hij]
    · intro hji
      unfold triu1
      rw [if_neg (by omega)]
  · rfl

/-- Witness for C4 at seqlen = 3 and the entry (0, 1). -/
theorem claimC4_witness :
    (∃ m : ℕ → ℕ → WithBot ℚ, buildMask (α := ℚ) 3 = some m ∧
      ((0 : ℕ) < 1 → m 0 1 = ⊥) ∧ ((1 : ℕ) ≤ 0 → m 0 1 = 0)) ∧
    buildMask (α := ℚ) 1 = none :=
  ⟨claimC4.1 3 0 1 (by decide) (by decide) (by decide), claimC4.2⟩

/-- C5: for any replication factor n_rep of at least 1, output head h of
repeat_kv is exactly input kv-head h / n_rep (contiguous duplication, and
h / n_rep is a valid kv-head index whenever h is a valid output head index);
with n_rep = 1 the result is the input tensor itself, unchanged. -/
theorem claimC5 (β : Type) :
    (∀ (x : T4 β) (n_rep nkv b s h d : ℕ), 1 ≤ n_rep → h < nkv * n_rep →
      (repeat_kv x n_rep).v b s h d = x.v b s (h / n_rep) d ∧ h / n_rep < nkv) ∧
    ∀ x : T4 β, repeat_kv x 1 = x := by
  constructor
  · intro x n_rep nkv b s h d h1 hlt
    constructor
    · unfold repeat_kv
      by_cases hn : n_rep = 1
      · subst hn
        rw [if_pos rfl, Nat.div_one]
      · rw [if_neg hn]
        rfl
    · exact (Nat.div_lt_iff_lt_mul (by omega)).2 hlt
  · intro x
    unfold repeat_kv
    rw [if_pos rfl]

/-- Witness for C5, echoing the specification's example: with n_rep = 3,
output head 7 reads kv-head 2 (7 / 3 = 2), over a tensor with 4 kv heads. -/
theorem claimC5_witness :
    (repeat_kv (T4.mk DType.float32 (fun _ _ h _ => (h : ℚ))) 3).v 0 0 7 0 =
      (T4.mk DType.float32 (fun _ _ h _ => (h : ℚ))).v 0 0 2 0 ∧ (7 : ℕ) / 3 < 4 :=
  (claimC5 ℚ).1 (T4.mk DType.float32 (fun _ _ h _ => (h : ℚ))) 3 4 0 0 7 0 (by decide) (by decide)

/-- C6: the hidden width of W1/W3 is computed in two stages, each applying
its own rescale-and-round-up exactly as written: __post_init__ derives
intermediate_size = find_multiple(int(2 * ffn_dim_multiplier * dim),
multiple_of); the TransformerBlock hands that number to FeedForward, which
recomputes find_multiple(int(2 * intermediate_size / 3), multiple_of).
At the source defaults the two stages give 11008 and then 7424, which
differ, so the rescaling really happens twice, not once. -/
theorem claimC6 :
    (∀ args : ResolvedArgs, TransformerBlock.ffn_hidden args =
      find_multiple (pyInt (2 * (args.intermediate_size : ℚ) / 3)) args.multiple_of) ∧
    (∀ a : ModelArgs, (ModelArgs.post_init a).intermediate_size =
      find_multiple (pyInt (2 * (a.ffn_dim_multiplier.getD (4 / 3)) * (a.dim : ℚ))) a.multiple_of) ∧
    (ModelArgs.post_init (ModelArgs.mk 4096 32 32 none 32000 256 none (1e-5) 32 2048)).intermediate_size = 11008 ∧
    TransformerBlock.ffn_hidden
      (ModelArgs.post_init (ModelArgs.mk 4096 32 32 none 32000 256 none (1e-5) 32 2048)) = 7424 ∧
    (7424 : ℤ) ≠ 11008 := by
  refine ⟨fun args => rfl, fun a => rfl, ?_, ?_, by decide⟩
  · norm_num [ModelArgs.post_init, find_multiple, pyInt, Option.getD_none]
  · norm_num [TransformerBlock.ffn_hidden, FeedForward.hidden_dim, ModelArgs.post_init,
      find_multiple, pyInt, Option.getD_none]

/-- C7: under exact real semantics (identity dtype casts, true reciprocal
square root), RMSNorm.forward returns weight_i * x_i / sqrt(mean of squares
+ eps) along the last axis, with the population mean of squares and no mean
subtraction. -/
theorem claimC7 (eps : ℝ) (D : ℕ) (weight x : ℕ → ℝ) (dtX : DType) (i : ℕ) :
    RMSNorm.forward
        (Engine.mk (fun _ z => Real.exp z) Real.sqrt (fun z => (Real.sqrt z)⁻¹)
          (fun z => z * (1 + Real.exp (-z))⁻¹) (fun _ z => z))
        eps D weight dtX x i =
      weight i * x i / Real.sqrt ((∑ j ∈ Finset.range D, x j ^ 2) / (D : ℝ) + eps) := by
  simp only [RMSNorm.forward, RMSNorm.norm]
  rw [div_eq_mul_inv]
  ring

/-- C3: Attention.forward coincides, at every index and for every engine,
with the specification's step list written as a direct formula
(attention_spec): bias-free Q/K/V projections, per-head reshape, rotary on
Q and K only and never on V, grouped-query head map h / n_rep for K and V,
scores Q.K^T / sqrt(head_dim), additive mask, softmax with the float32
exponential cast back to the working dtype, value weighting, head
concatenation, and the bias-free output projection; the output dtype is the
input's. -/
theorem claimC3 (β : Type) [Field β] (E : Engine β) (args : ResolvedArgs)
    (w : AttentionW β) (seqlen : ℕ) (x : T3 β) (freqs : ℕ → ℕ → β × β)
    (mask : Option (ℕ → ℕ → WithBot β)) :
    Attention.forward E (Attention.init args w) args.dim seqlen x freqs mask =
      attention_spec E args.n_heads args.n_kv_heads (args.dim / args.n_heads)
        args.dim seqlen w x freqs mask := by
  have hrep : ∀ (t : T4 β) (bb ss hh dd : ℕ),
      (repeat_kv t (args.n_heads / args.n_kv_heads)).v bb ss hh dd =
        t.v bb ss (hh / (args.n_heads / args.n_kv_heads)) dd := by
    intro t bb ss hh dd
    unfold repeat_kv
    by_cases hn : args.n_heads / args.n_kv_heads = 1
    · rw [hn, if_pos rfl, Nat.div_one]
    · rw [if_neg hn]
      rfl
  apply T3.ext_of
  · rfl
  · intro b s o
    cases mask with
    | none =>
      simp only [Attention.forward, attention_spec, Attention.init, addMask, linearT,
        flatten34, transpose12, transposeLast, matmul4, divScalar, typeAsT,
        softmaxLast, floatCastWB, view3to4, apply_rotary_emb]
      rw [sum_range_mul_split]
      refine Finset.sum_congr rfl fun h _ => Finset.sum_congr rfl fun e he => ?_
      have he' : e < args.dim / args.n_heads := Finset.mem_range.1 he
      have hd0 : 0 < args.dim / args.n_heads := by omega
      have hdiv : (h * (args.dim / args.n_heads) + e) / (args.dim / args.n_heads) = h := by
        rw [Nat.add_comm, Nat.mul_comm, Nat.add_mul_div_left _ _ hd0,
          Nat.div_eq_of_lt he', Nat.zero_add]
      have hmod : (h * (args.dim / args.n_heads) + e) % (args.dim / args.n_heads) = e := by
        rw [Nat.add_comm, Nat.mul_comm, Nat.add_mul_mod_self_left, Nat.mod_eq_of_lt he']
      rw [hdiv, hmod]
      simp only [hrep]
    | some m =>
      simp only [Attention.forward, attention_spec, Attention.init, addMask, linearT,
        flatten34, transpose12, transposeLast, matmul4, divScalar, typeAsT,
        softmaxLast, floatCastWB, view3to4, apply_rotary_emb]
      rw [sum_range_mul_split]
      refine Finset.sum_congr rfl fun h _ => Finset.sum_congr rfl fun e he => ?_
      have he' : e < args.dim / args.n_heads := Finset.mem_range.1 he
      have hd0 : 0 < args.dim / args.n_heads := by omega
      have hdiv : (h * (args.dim / args.n_heads) + e) / (args.dim / args.n_heads) = h := by
        rw [Nat.add_comm, Nat.mul_comm, Nat.add_mul_div_left _ _ hd0,
          Nat.div_eq_of_lt he', Nat.zero_add]
      have hmod : (h * (args.dim / args.n_heads) + e) % (args.dim / args.n_heads) = e := by
        rw [Nat.add_comm, Nat.mul_comm, Nat.add_mul_mod_self_left, Nat.mod_eq_of_lt he']
      rw [hdiv, hmod]
      simp only [hrep]

/-- Complex multiplication of pairs agrees with multiplication in the complex
numbers. -/
theorem toC_cmul (u w : ℝ × ℝ) : toC (cmul u w) = toC u * toC w := by
  unfold toC cmul
  apply Complex.ext <;>
    simp [Complex.add_re, Complex.mul_re, Complex.add_im, Complex.mul_im]

/-- C8: under exact real semantics, every entry of the precomputed rotary
table is a unit-magnitude complex number (phase position * theta^(-2i/dim)),
and applying apply_rotary_emb leaves the magnitude of every adjacent
(real, imaginary) pair of Q or K unchanged: only the phase moves. -/
theorem claimC8 (theta : ℝ) (dim : ℕ) (x : T4 ℝ) (b s h e : ℕ) :
    Complex.abs (toC (precompute_freqs_cis dim theta s e)) = 1 ∧
    Complex.abs (toC (pairAt ((apply_rotary_emb
        (Engine.mk (fun _ z => Real.exp z) Real.sqrt (fun z => (Real.sqrt z)⁻¹)
          (fun z => z * (1 + Real.exp (-z))⁻¹) (fun _ z => z))
        (precompute_freqs_cis dim theta) x).v b s h) e)) =
      Complex.abs (toC (pairAt (x.v b s h) e)) := by
  have habs : ∀ p i : ℕ, Complex.abs (toC (precompute_freqs_cis dim theta p i)) = 1 := by
    intro p i
    unfold toC precompute_freqs_cis
    rw [Complex.abs_apply, Complex.normSq_add_mul_I, Real.cos_sq_add_sin_sq, Real.sqrt_one]
  refine ⟨habs s e, ?_⟩
  have h1 : 2 * e % 2 = 0 := by omega
  have h2 : 2 * e / 2 = e := by omega
  have h3 : (2 * e + 1) % 2 = 1 := by omega
  have h4 : (2 * e + 1) / 2 = e := by omega
  have hpair : pairAt ((apply_rotary_emb
      (Engine.mk (fun _ z => Real.exp z) Real.sqrt (fun z => (Real.sqrt z)⁻¹)
        (fun z => z * (1 + Real.exp (-z))⁻¹) (fun _ z => z))
      (precompute_freqs_cis dim theta) x).v b s h) e =
      cmul (pairAt (x.v b s h) e) (precompute_freqs_cis dim theta s e) := by
    show ((apply_rotary_emb _ _ x).v b s h (2 * e), (apply_rotary_emb _ _ x).v b s h (2 * e + 1)) = _
    simp only [apply_rotary_emb, h1, h2, h3, h4]
    rfl
  rw [hpair, toC_cmul, map_mul, habs s e, mul_one]

/-- C9: the embedded Transformer.forward is a pure function of the engine,
the weights (including the rotary table buffer), the token ids, and
start_pos: equal inputs yield equal logits, and the materialized logits
tensor has shape [bsz, seqlen, vocab_size]. -/
theorem claimC9 (β : Type) [Field β] (E1 E2 : Engine β) (args : ResolvedArgs)
    (W1 W2 : TransformerW β) (tok1 tok2 : ℕ → ℕ → ℕ) (bsz seqlen sp1 sp2 : ℕ)
    (hE : E1 = E2) (hW : W1 = W2) (ht : tok1 = tok2) (hs : sp1 = sp2) :
    transformer_logits E1 args W1 tok1 bsz seqlen sp1 =
      transformer_logits E2 args W2 tok2 bsz seqlen sp2 ∧
    (transformer_logits E1 args W1 tok1 bsz seqlen sp1).length = bsz ∧
    ∀ M ∈ transformer_logits E1 args W1 tok1 bsz seqlen sp1,
      M.length = seqlen ∧ ∀ r ∈ M, r.length = args.vocab_size := by
  subst hE hW ht hs
  refine ⟨rfl, ?_, ?_⟩
  · simp [transformer_logits]
  · intro M hM
    simp only [transformer_logits, List.mem_map] at hM
    obtain ⟨b, -, rfl⟩ := hM
    refine ⟨by simp, ?_⟩
    intro r hr
    simp only [List.mem_map] at hr
    obtain ⟨s, -, rfl⟩ := hr
    simp

/-- Witness for C9 on a tiny concrete model over the rationals with an
identity engine: two identical invocations coincide and the logits have
shape [1, 1, 2]. -/
theorem claimC9_witness :
    transformer_logits (Engine.mk (fun _ q => q) (fun q => q) (fun q => q) (fun q => q)
        (fun _ q => q))
      (ResolvedArgs.mk 2 1 1 1 2 2 (4 / 3) (1e-5) 1 4 4)
      (TransformerW.mk DType.float32 (fun _ _ => (1 : ℚ)) [] (fun _ => 1) (fun _ _ => 1) [])
      (fun _ _ => 0) 1 1 0 =
    transformer_logits (Engine.mk (fun _ q => q) (fun q => q) (fun q => q) (fun q => q)
        (fun _ q => q))
      (ResolvedArgs.mk 2 1 1 1 2 2 (4 / 3) (1e-5) 1 4 4)
      (TransformerW.mk DType.float32 (fun _ _ => (1 : ℚ)) [] (fun _ => 1) (fun _ _ => 1) [])
      (fun _ _ => 0) 1 1 0 ∧
    (transformer_logits (Engine.mk (fun _ q => q) (fun q => q) (fun q => q) (fun q => q)
        (fun _ q => q))
      (ResolvedArgs.mk 2 1 1 1 2 2 (4 / 3) (1e-5) 1 4 4)
      (TransformerW.mk DType.float32 (fun _ _ => (1 : ℚ)) [] (fun _ => 1) (fun _ _ => 1) [])
      (fun _ _ => 0) 1 1 0).length = 1 ∧
    ∀ M ∈ transformer_logits (Engine.mk (fun _ q => q) (fun q => q) (fun q => q) (fun q => q)
        (fun _ q => q))
      (ResolvedArgs.mk 2 1 1 1 2 2 (4 / 3) (1e-5) 1 4 4)
      (TransformerW.mk DType.float32 (fun _ _ => (1 : ℚ)) [] (fun _ => 1) (fun _ _ => 1) [])
      (fun _ _ => 0) 1 1 0,
      M.length = 1 ∧ ∀ r ∈ M,
        r.length = (ResolvedArgs.mk 2 1 1 1 2 2 (4 / 3) (1e-5) 1 4 4).vocab_size :=
  claimC9 ℚ _ _ _ _ _ _ _ 1 1 0 0 rfl rfl rfl rfl

/-- WithBot.map of a monotone function commutes with max. -/
theorem withBotMap_max (f : ℚ → ℚ) (hf : Monotone f) (a c : WithBot ℚ) :
    WithBot.map f (max a c) = max (WithBot.map f a) (WithBot.map f c) := by
  cases a with
  | bot => simp
  | coe u =>
    cases c with
    | bot => simp
    | coe w =>
      rw [← WithBot.coe_max, WithBot.map_coe, WithBot.map_coe, WithBot.map_coe,
        ← WithBot.coe_max, hf.map_max]

/-- Dividing every logit by a positive temperature rescales the running
maximum accordingly. -/
theorem maxL_map_div (T : ℚ) (hT : 0 < T) (l : List ℚ) :
    maxL (l.map fun z => z / T) = WithBot.map (fun z => z / T) (maxL l) := by
  induction l with
  | nil => simp [maxL]
  | cons x xs ih =>
    simp only [List.map_cons, maxL, ih]
    rw [withBotMap_max _ (fun a c hac => (div_le_div_iff_of_pos_right hT).2 hac), WithBot.map_coe]

/-- Division by a positive temperature does not change which index holds the
first maximal logit. -/
theorem argmaxFirst_map_div (T : ℚ) (hT : 0 < T) (l : List ℚ) :
    argmaxFirst (l.map fun z => z / T) = argmaxFirst l := by
  induction l with
  | nil => rfl
  | cons x xs ih =>
    have hiff : (WithBot.map (fun z => z / T) (maxL xs) ≤ ((x / T : ℚ) : WithBot ℚ)) ↔
        maxL xs ≤ (x : WithBot ℚ) := by
      cases hm : maxL xs with
      | bot => simp
      | coe m => simp [WithBot.map_coe, WithBot.coe_le_coe, div_le_div_iff_of_pos_right hT]
    simp only [List.map_cons, argmaxFirst, maxL_map_div T hT, ih]
    exact if_congr hiff rfl rfl

/-- C10: in generate_text_greedy the temperature is inert: for any positive
temperature, argmax of the temperature-scaled last-position logits equals
argmax of the raw logits, and the whole generated id sequence coincides with
the one produced at the default temperature 1. -/
theorem claimC10 (modelLast : List ℕ → List ℚ) (eos fuel : ℕ) (ids : List ℕ)
    (T : ℚ) (hT : 0 < T) :
    greedyStep modelLast T ids = argmaxFirst (modelLast ids) ∧
    generate_text_greedy modelLast eos T fuel ids =
      generate_text_greedy modelLast eos 1 fuel ids := by
  have hstep : ∀ ids' : List ℕ, greedyStep modelLast T ids' = greedyStep modelLast 1 ids' := by
    intro ids'
    unfold greedyStep
    rw [argmaxFirst_map_div T hT, argmaxFirst_map_div 1 one_pos]
  refine ⟨argmaxFirst_map_div T hT (modelLast ids), ?_⟩
  induction fuel generalizing ids with
  | zero => rfl
  | succ n ih =>
    simp only [generate_text_greedy]
    rw [hstep ids]
    by_cases he : greedyStep modelLast 1 ids = eos
    · rw [if_pos he, if_pos he]
    · rw [if_neg he, if_neg he, ih]

/-- Witness for C10 with temperature 2 over concrete logits. -/
theorem claimC10_witness :
    greedyStep (fun _ => [(1 : ℚ), 3, 2]) 2 [0] = argmaxFirst [(1 : ℚ), 3, 2] ∧
    generate_text_greedy (fun _ => [(1 : ℚ), 3, 2]) 5 2 2 [0] =
      generate_text_greedy (fun _ => [(1 : ℚ), 3, 2]) 5 1 2 [0] :=
  claimC10 (fun _ => [(1 : ℚ), 3, 2]) 5 2 [0] 2 (by norm_num)
